import Mathlib

/-!  Verification of the beeline datapoint edit workflow.

This file embeds the tabular codec (`src/edit.rs`) and the reconcile/apply
loop of `edit_datapoints` (`src/main.rs`) as executable Lean definitions and
proves the specified properties about them.

Modeling conventions:
* Text is a list of characters (`Str`); a file handed to the line-based
  reader is a list of lines.
* Timestamps are UTC instants in whole seconds (`Int`); datapoint values,
  which the program prints with `Display` and re-parses exactly, are `Int`.
* The external `time` crate's fixed second-granularity formatting is modeled
  as an injective, tab-free decimal rendering of the local wall-clock time
  (UTC seconds plus the process-local offset), and its parsing as the exact
  inverse, failing on any malformed text; likewise for the value codec.
* `HashMap`/`HashSet` of before-row ids are modeled as lists: lookup finds
  the last insertion (`HashMap::collect` keeps the last duplicate key) and
  the id set is deduplicated.
* The remote client is an oracle `fails : Operation → Bool`; issuing an
  operation whose oracle value is `true` models an `Err` from the API, which
  the code propagates with the `?` operator.
* `ProcessCommand::status()` for the editor is `Option Int`: `none` is a
  spawn failure (the `?` aborts), `some code` is a finished process with
  that exit code.
-/

namespace Beeline

/-- Text modeled as a list of characters. -/
abbrev Str := List Char

/-- Decimal digit rendered as a character (model of numeric `Display`). -/
def digitChar (d : Nat) : Char :=
  match d with
  | 0 => '0'
  | 1 => '1'
  | 2 => '2'
  | 3 => '3'
  | 4 => '4'
  | 5 => '5'
  | 6 => '6'
  | 7 => '7'
  | 8 => '8'
  | _ => '9'

/-- Character read back as a decimal digit; `none` on a non-digit. -/
def charDigit (c : Char) : Option Nat :=
  if c = '0' then some 0
  else if c = '1' then some 1
  else if c = '2' then some 2
  else if c = '3' then some 3
  else if c = '4' then some 4
  else if c = '5' then some 5
  else if c = '6' then some 6
  else if c = '7' then some 7
  else if c = '8' then some 8
  else if c = '9' then some 9
  else none

/-- Reads every character as a digit, failing on the first non-digit. -/
def charsToDigits : Str → Option (List Nat)
  | [] => some []
  | c :: cs =>
    match charDigit c, charsToDigits cs with
    | some d, some ds => some (d :: ds)
    | _, _ => none

/-- Base-10 digit extraction, least significant first, with explicit fuel so
that the kernel can evaluate it; agrees with `Nat.digits 10` when the fuel
is at least the number (proved below). -/
def toDigits : Nat → Nat → List Nat
  | 0, _ => []
  | fuel + 1, n => if n = 0 then [] else n % 10 :: toDigits fuel (n / 10)

/-- Decimal rendering of a natural number, most significant digit first. -/
def formatNat (n : Nat) : Str :=
  if n = 0 then ['0'] else ((toDigits n n).reverse).map digitChar

/-- Strict decimal parse of a natural number: nonempty all-digit text. -/
def parseNat (s : Str) : Option Nat :=
  if s = [] then none
  else (charsToDigits s).map (fun ds => Nat.ofDigits 10 ds.reverse)

/-- Decimal rendering of an integer (leading minus sign when negative). -/
def formatInt (n : Int) : Str :=
  if n < 0 then '-' :: formatNat (-n).toNat else formatNat n.toNat

/-- Strict decimal parse of an integer. -/
def parseInt (s : Str) : Option Int :=
  if s.head? = some '-' then (parseNat (s.drop 1)).map (fun m => -(m : Int))
  else (parseNat s).map (fun m => (m : Int))

/-- Model of `dp.timestamp.to_offset(offset)` followed by the fixed-format
rendering in `write_datapoints_tsv`: the UTC instant `t` is shown as the
local wall-clock time `t + offset`. -/
def formatTimestamp (offset t : Int) : Str :=
  formatInt (t + offset)

/-- Model of `PrimitiveDateTime::parse` followed by
`assume_offset(offset).to_offset(UTC)` in `read_datapoints_tsv`: wall-clock
text is parsed and normalized back to a UTC instant. -/
def parseTimestamp (offset : Int) (s : Str) : Option Int :=
  (parseInt s).map (fun w => w - offset)

/-- Model of the `Display` rendering of a datapoint value. -/
def formatValue (v : Int) : Str :=
  formatInt v

/-- Model of `value_str.parse()` for a datapoint value. -/
def parseValue (s : Str) : Option Int :=
  parseInt s

/-- Model of Rust `str::split('\t')`: splitting on horizontal tabs, where
the empty text yields one empty field. -/
def splitTab : Str → List Str
  | [] => [[]]
  | c :: cs =>
    if c = '\t' then [] :: splitTab cs
    else
      match splitTab cs with
      | [] => [[c]]
      | f :: rest => (c :: f) :: rest

/-- A remote datapoint as fetched from the service (`beeminder::types::Datapoint`). -/
structure Datapoint where
  id : Str
  timestamp : Int
  value : Int
  comment : Option Str
deriving DecidableEq

/-- A row re-parsed from the edited table (`EditableDatapoint` in `main.rs`). -/
structure EditableDatapoint where
  id : Option Str
  timestamp : Option Int
  value : Option Int
  comment : Option Str
deriving DecidableEq

/-- The fixed header line written by `write_datapoints_tsv`. -/
def headerLine : Str :=
  ('T' :: 'I' :: 'M' :: 'E' :: 'S' :: 'T' :: 'A' :: 'M' :: 'P' :: '\t' ::
   'V' :: 'A' :: 'L' :: 'U' :: 'E' :: '\t' ::
   'C' :: 'O' :: 'M' :: 'M' :: 'E' :: 'N' :: 'T' :: '\t' ::
   'I' :: 'D' :: [])

/-- One data line of the table: timestamp, value, comment (empty when the
datapoint has none) and id, tab separated (`edit.rs`, lines 15-24). -/
def formatDatapointLine (offset : Int) (dp : Datapoint) : Str :=
  formatTimestamp offset dp.timestamp ++ '\t' ::
    (formatValue dp.value ++ '\t' :: (dp.comment.getD [] ++ '\t' :: dp.id))

/-- Model of `write_datapoints_tsv` (`edit.rs`, lines 11-26), producing the
list of written lines. -/
def write_datapoints_tsv (offset : Int) (datapoints : List Datapoint) : List Str :=
  headerLine :: datapoints.map (formatDatapointLine offset)

/-- Decoding of one data line (the loop body of `read_datapoints_tsv`,
`edit.rs` lines 37-60): the first two tab-fields are required, the third
defaults to the empty comment, the fourth is the id with the empty string
normalized to `none`, and any further fields are ignored. -/
def parseLine (offset : Int) (line : Str) : Except String EditableDatapoint :=
  match (splitTab line)[0]? with
  | none => Except.error "Missing date"
  | some date_str =>
    match (splitTab line)[1]? with
    | none => Except.error "Missing value"
    | some value_str =>
      match parseTimestamp offset date_str with
      | none => Except.error "invalid date"
      | some timestamp =>
        match parseValue value_str with
        | none => Except.error "invalid value"
        | some value =>
          Except.ok ⟨((splitTab line)[3]?).filter (fun s => !s.isEmpty),
            some timestamp, some value, some (((splitTab line)[2]?).getD [])⟩

/-- Decoding of the data lines in order; the first failing line aborts the
whole decode, exactly as the `?` operators in the Rust loop do. -/
def readLines (offset : Int) : List Str → Except String (List EditableDatapoint)
  | [] => Except.ok []
  | l :: ls =>
    match parseLine offset l with
    | Except.error e => Except.error e
    | Except.ok dp =>
      match readLines offset ls with
      | Except.error e => Except.error e
      | Except.ok dps => Except.ok (dp :: dps)

/-- Model of `read_datapoints_tsv` (`edit.rs`, lines 28-63): the first line
is discarded unconditionally as the header, the rest are decoded strictly. -/
def read_datapoints_tsv (offset : Int) (lines : List Str) :
    Except String (List EditableDatapoint) :=
  readLines offset (lines.drop 1)

/-- Lookup in the map built from the before-rows (`orig_map` in `main.rs`,
lines 124-125); `HashMap::collect` keeps the last binding of a key, so the
last matching row wins. -/
def origFind (before : List Datapoint) (id : Str) : Option Datapoint :=
  before.reverse.find? (fun dp => decide (dp.id = id))

/-- The update test of `main.rs` lines 133-135: any of value, timestamp or
comment differing (exact equality, absent comment distinct from empty). -/
def needsUpdate (dp : EditableDatapoint) (orig : Datapoint) : Bool :=
  decide (dp.value ≠ some orig.value) || decide (dp.timestamp ≠ some orig.timestamp) ||
    decide (dp.comment ≠ orig.comment)

/-- A remote mutation requested by the edit session. -/
inductive Operation where
  | update (id : Str) (timestamp : Option Int) (value : Option Int) (comment : Option Str)
  | create (timestamp : Option Int) (value : Int) (comment : Option Str)
  | delete (id : Str)
deriving DecidableEq

/-- Whether an operation is a deletion. -/
def Operation.isDelete : Operation → Bool
  | Operation.delete _ => true
  | _ => false

/-- One pass of the reconciliation loop of `edit_datapoints` (`main.rs`
lines 128-165) over the after-rows, threading the `ids_to_delete` set and
collecting the update/create operations and the orphan reports in order. -/
def reconcileRows (before : List Datapoint) :
    List EditableDatapoint → List Str → List Operation × List Str × List Str
  | [], ids => ([], [], ids)
  | dp :: rest, ids =>
    match dp.id with
    | some id =>
      match origFind before id with
      | some orig =>
        let r := reconcileRows before rest (ids.filter (fun i => decide (i ≠ id)))
        if needsUpdate dp orig then
          (Operation.update id dp.timestamp dp.value dp.comment :: r.1, r.2.1, r.2.2)
        else r
      | none =>
        let r := reconcileRows before rest ids
        (r.1, id :: r.2.1, r.2.2)
    | none =>
      let r := reconcileRows before rest ids
      (Operation.create dp.timestamp (dp.value.getD 0) dp.comment :: r.1, r.2.1, r.2.2)

/-- The full reconciliation result: updates and creates in after-row order,
then one delete per id remaining in `ids_to_delete` (`main.rs` lines
126-170), paired with the orphan reports. -/
def reconcile (before : List Datapoint) (after : List EditableDatapoint) :
    List Operation × List Str :=
  let r := reconcileRows before after ((before.map (fun dp => dp.id)).dedup)
  (r.1 ++ (r.2.2).map Operation.delete, r.2.1)

/-- Outcome of an edit session: the operations attempted against the remote
API in order, the orphan ids reported, and whether the session returned Ok. -/
structure SessionResult where
  attempted : List Operation
  orphans : List Str
  ok : Bool
deriving DecidableEq

/-- The apply side of the reconciliation loop (`main.rs` lines 128-165):
each update or create is issued as soon as it is computed, and a failing
call makes the `?` operator abort the whole loop. -/
def applyRows (fails : Operation → Bool) (before : List Datapoint) :
    List EditableDatapoint → List Str → List Operation × List Str × List Str × Bool
  | [], ids => ([], [], ids, true)
  | dp :: rest, ids =>
    match dp.id with
    | some id =>
      match origFind before id with
      | some orig =>
        let ids2 := ids.filter (fun i => decide (i ≠ id))
        if needsUpdate dp orig then
          let op := Operation.update id dp.timestamp dp.value dp.comment
          if fails op then ([op], [], ids2, false)
          else
            let r := applyRows fails before rest ids2
            (op :: r.1, r.2.1, r.2.2.1, r.2.2.2)
        else applyRows fails before rest ids2
      | none =>
        let r := applyRows fails before rest ids
        (r.1, id :: r.2.1, r.2.2.1, r.2.2.2)
    | none =>
      let op := Operation.create dp.timestamp (dp.value.getD 0) dp.comment
      if fails op then ([op], [], ids, false)
      else
        let r := applyRows fails before rest ids
        (op :: r.1, r.2.1, r.2.2.1, r.2.2.2)

/-- The delete loop of `edit_datapoints` (`main.rs` lines 167-170): one
delete per remaining id, aborting on the first failing call. -/
def applyDeletes (fails : Operation → Bool) : List Str → List Operation × Bool
  | [] => ([], true)
  | id :: rest =>
    let op := Operation.delete id
    if fails op then ([op], false)
    else
      let r := applyDeletes fails rest
      (op :: r.1, r.2)

/-- Model of `edit_datapoints` (`main.rs` lines 108-173) from the moment the
editor is invoked: `editorExit` is the editor process outcome (`none` for a
spawn failure), `editedLines` the temp file content afterwards, `before` the
fetched snapshot.  The exit code of a finished editor is not inspected by
the code; decode failure aborts before any mutation; otherwise the
reconciliation loop issues updates and creates, then the deletes. -/
def edit_datapoints (fails : Operation → Bool) (offset : Int) (editorExit : Option Int)
    (editedLines : List Str) (before : List Datapoint) : SessionResult :=
  match editorExit with
  | none => ⟨[], [], false⟩
  | some _ =>
    match read_datapoints_tsv offset editedLines with
    | Except.error _ => ⟨[], [], false⟩
    | Except.ok after =>
      let r := applyRows fails before after ((before.map (fun dp => dp.id)).dedup)
      if r.2.2.2 then
        let d := applyDeletes fails r.2.2.1
        ⟨r.1 ++ d.1, r.2.1, d.2⟩
      else ⟨r.1, r.2.1, false⟩

/-- The image of a datapoint under encode-then-decode: all fields present,
with an absent comment collapsed to the empty comment. -/
def decodedRow (dp : Datapoint) : EditableDatapoint :=
  ⟨some dp.id, some dp.timestamp, some dp.value, some (dp.comment.getD [])⟩

/-- The after-row ids that match a before-row, in after order (the ids that
the loop removes from `ids_to_delete`). -/
def matchedIds (before : List Datapoint) (after : List EditableDatapoint) : List Str :=
  after.filterMap (fun dp => dp.id.filter (fun i => (origFind before i).isSome))

/-! ## Properties of the numeric codec -/

theorem toDigits_eq_digits : ∀ (fuel n : Nat), n ≤ fuel → toDigits fuel n = Nat.digits 10 n := by
  intro fuel
  induction fuel with
  | zero =>
    intro n hn
    interval_cases n
    simp [toDigits]
  | succ fuel ih =>
    intro n hn
    by_cases h0 : n = 0
    · subst h0; simp [toDigits]
    · have hdiv : n / 10 ≤ fuel := by
        have : n / 10 < n := Nat.div_lt_self (Nat.pos_of_ne_zero h0) (by norm_num)
        omega
      rw [show toDigits (fuel + 1) n = n % 10 :: toDigits fuel (n / 10) from by
        simp [toDigits, h0]]
      rw [ih _ hdiv, Nat.digits_def' (by norm_num : (1 : Nat) < 10) (Nat.pos_of_ne_zero h0)]

theorem charDigit_digitChar : ∀ d : Nat, d < 10 → charDigit (digitChar d) = some d := by
  decide

theorem digitChar_mem (d : Nat) :
    digitChar d ∈ ['0', '1', '2', '3', '4', '5', '6', '7', '8', '9'] := by
  unfold digitChar
  split <;> decide

theorem charsToDigits_map (l : List Nat) (h : ∀ d ∈ l, d < 10) :
    charsToDigits (l.map digitChar) = some l := by
  induction l with
  | nil => rfl
  | cons d ds ih =>
    have hd : charDigit (digitChar d) = some d := charDigit_digitChar d (h d (by simp))
    have hds : charsToDigits (ds.map digitChar) = some ds := ih (fun x hx => h x (by simp [hx]))
    simp [charsToDigits, hd, hds]

theorem formatNat_ne_nil (n : Nat) : formatNat n ≠ [] := by
  unfold formatNat
  by_cases h0 : n = 0
  · simp [h0]
  · simp only [h0, if_false]
    rw [toDigits_eq_digits n n le_rfl]
    simp [Nat.digits_ne_nil_iff_ne_zero.mpr h0]

theorem mem_formatNat (n : Nat) (c : Char) (hc : c ∈ formatNat n) :
    c ∈ ['0', '1', '2', '3', '4', '5', '6', '7', '8', '9'] := by
  unfold formatNat at hc
  by_cases h0 : n = 0
  · simp [h0] at hc
    simp [hc]
  · simp only [h0, if_false, List.mem_map] at hc
    obtain ⟨d, _, rfl⟩ := hc
    exact digitChar_mem d

theorem parseNat_formatNat (n : Nat) : parseNat (formatNat n) = some n := by
  unfold parseNat
  rw [if_neg (formatNat_ne_nil n)]
  by_cases h0 : n = 0
  · subst h0; rfl
  · unfold formatNat
    simp only [h0, if_false]
    rw [toDigits_eq_digits n n le_rfl]
    rw [charsToDigits_map _ (fun d hd =>
      Nat.digits_lt_base (by norm_num) (List.mem_reverse.mp hd))]
    simp [Nat.ofDigits_digits]

theorem head_formatNat_ne_dash (n : Nat) : (formatNat n).head? ≠ some '-' := by
  cases hfn : formatNat n with
  | nil => exact absurd hfn (formatNat_ne_nil n)
  | cons c cs =>
    have hc : c ∈ formatNat n := by rw [hfn]; simp
    have := mem_formatNat n c hc
    simp only [List.head?_cons, ne_eq, Option.some.injEq]
    intro h
    subst h
    simp at this

theorem parseInt_formatInt (n : Int) : parseInt (formatInt n) = some n := by
  unfold parseInt formatInt
  by_cases hn : n < 0
  · simp only [hn, if_true, List.head?_cons, if_pos rfl, List.drop_succ_cons, List.drop_zero]
    rw [parseNat_formatNat]
    have : ((-n).toNat : Int) = -n := Int.toNat_of_nonneg (by omega)
    simp [this]
  · simp only [hn, if_false]
    rw [if_neg (head_formatNat_ne_dash n.toNat)]
    rw [parseNat_formatNat]
    have : (n.toNat : Int) = n := Int.toNat_of_nonneg (by omega)
    simp [this]

theorem mem_formatInt (n : Int) (c : Char) (hc : c ∈ formatInt n) :
    c ∈ ['-', '0', '1', '2', '3', '4', '5', '6', '7', '8', '9'] := by
  unfold formatInt at hc
  by_cases hn : n < 0
  · simp only [hn, if_true, List.mem_cons] at hc
    rcases hc with rfl | hc
    · simp
    · have := mem_formatNat _ c hc
      simp at this ⊢
      tauto
  · simp only [hn, if_false] at hc
    have := mem_formatNat _ c hc
    simp at this ⊢
    tauto

theorem tab_not_mem_formatInt (n : Int) : '\t' ∉ formatInt n := by
  intro h
  have := mem_formatInt n _ h
  simp at this

theorem newline_not_mem_formatInt (n : Int) : '\n' ∉ formatInt n := by
  intro h
  have := mem_formatInt n _ h
  simp at this

/-! ## Properties of tab splitting -/

theorem splitTab_ne_nil (s : Str) : splitTab s ≠ [] := by
  induction s with
  | nil => simp [splitTab]
  | cons c cs ih =>
    by_cases hc : c = '\t'
    · simp [splitTab, hc]
    · simp only [splitTab, hc, if_false]
      cases h : splitTab cs with
      | nil => simp
      | cons f rest => simp

theorem splitTab_no_tab (s : Str) (h : '\t' ∉ s) : splitTab s = [s] := by
  induction s with
  | nil => rfl
  | cons c cs ih =>
    have hc : c ≠ '\t' := by
      intro e
      exact h (by simp [e])
    have hcs : '\t' ∉ cs := fun m => h (by simp [m])
    simp only [splitTab, hc, if_false]
    rw [ih hcs]

theorem splitTab_append (a b : Str) : splitTab (a ++ '\t' :: b) = splitTab a ++ splitTab b := by
  induction a with
  | nil => simp [splitTab]
  | cons c cs ih =>
    by_cases hc : c = '\t'
    · subst hc
      simp [splitTab, ih]
    · simp only [List.cons_append, splitTab, hc, if_false, List.append_eq, ih]
      cases h : splitTab cs with
      | nil => exact absurd h (splitTab_ne_nil cs)
      | cons f rest => simp

theorem splitTab_line (a b c d : Str) (ha : '\t' ∉ a) (hb : '\t' ∉ b)
    (hc : '\t' ∉ c) (hd : '\t' ∉ d) :
    splitTab (a ++ '\t' :: (b ++ '\t' :: (c ++ '\t' :: d))) = [a, b, c, d] := by
  rw [splitTab_append, splitTab_append, splitTab_append, splitTab_no_tab a ha,
    splitTab_no_tab b hb, splitTab_no_tab c hc, splitTab_no_tab d hd]
  rfl

/-! ## Round trip of one encoded line -/

theorem parseLine_format (offset : Int) (dp : Datapoint) (hid : dp.id ≠ [])
    (hidt : '\t' ∉ dp.id) (hct : '\t' ∉ dp.comment.getD []) :
    parseLine offset (formatDatapointLine offset dp) = Except.ok (decodedRow dp) := by
  have hempty : dp.id.isEmpty = false := by
    cases h : dp.id with
    | nil => exact absurd h hid
    | cons x xs => rfl
  unfold parseLine formatDatapointLine formatTimestamp formatValue
  rw [splitTab_line _ _ _ _ (tab_not_mem_formatInt _) (tab_not_mem_formatInt _) hct hidt]
  simp only [List.getElem?_cons_zero, List.getElem?_cons_succ, Option.getD_some]
  unfold parseTimestamp parseValue
  rw [parseInt_formatInt, parseInt_formatInt]
  simp [Option.filter, hempty, decodedRow, add_sub_cancel_right]

theorem readLines_map (offset : Int) (dps : List Datapoint)
    (h : ∀ dp ∈ dps, dp.id ≠ [] ∧ '\t' ∉ dp.id ∧ '\t' ∉ dp.comment.getD []) :
    readLines offset (dps.map (formatDatapointLine offset)) = Except.ok (dps.map decodedRow) := by
  induction dps with
  | nil => rfl
  | cons dp rest ih =>
    obtain ⟨h1, h2, h3⟩ := h dp (by simp)
    simp only [List.map_cons, readLines, parseLine_format offset dp h1 h2 h3,
      ih (fun x hx => h x (by simp [hx]))]

theorem read_write (offset : Int) (before : List Datapoint)
    (h : ∀ dp ∈ before, dp.id ≠ [] ∧ '\t' ∉ dp.id ∧ '\t' ∉ dp.comment.getD []) :
    read_datapoints_tsv offset (write_datapoints_tsv offset before) =
      Except.ok (before.map decodedRow) :=
  readLines_map offset before h

/-! ## Properties of the before-row lookup -/

theorem origFind_eq_none (before : List Datapoint) (i : Str)
    (h : i ∉ before.map (fun dp => dp.id)) : origFind before i = none := by
  unfold origFind
  rw [List.find?_eq_none]
  intro dp hdp
  simp only [decide_eq_true_eq]
  intro e
  exact h (List.mem_map.mpr ⟨dp, List.mem_reverse.mp hdp, e⟩)

theorem origFind_isSome (before : List Datapoint) (i : Str) :
    (origFind before i).isSome = true ↔ i ∈ before.map (fun dp => dp.id) := by
  unfold origFind
  rw [List.find?_isSome]
  constructor
  · rintro ⟨dp, hdp, hp⟩
    simp only [decide_eq_true_eq] at hp
    exact List.mem_map.mpr ⟨dp, List.mem_reverse.mp hdp, hp⟩
  · intro h
    obtain ⟨dp, hdp, he⟩ := List.mem_map.mp h
    exact ⟨dp, List.mem_reverse.mpr hdp, by simp [he]⟩

theorem origFind_self (before : List Datapoint) (hnd : (before.map (fun dp => dp.id)).Nodup)
    (dp : Datapoint) (hmem : dp ∈ before) : origFind before dp.id = some dp := by
  induction before with
  | nil => simp at hmem
  | cons b rest ih =>
    simp only [List.map_cons, List.nodup_cons] at hnd
    unfold origFind
    rw [List.reverse_cons, List.find?_append]
    rcases List.mem_cons.mp hmem with rfl | hmem2
    · have h1 : List.find? (fun d => decide (d.id = dp.id)) rest.reverse = none := by
        rw [List.find?_eq_none]
        intro x hx
        simp only [decide_eq_true_eq]
        intro e
        exact hnd.1 (List.mem_map.mpr ⟨x, List.mem_reverse.mp hx, e⟩)
      rw [h1]
      simp [List.find?]
    · have ih2 := ih hnd.2 hmem2
      unfold origFind at ih2
      rw [ih2]
      rfl

/-! ## Properties of the reconciliation loop -/

theorem mem_matchedIds (before : List Datapoint) (after : List EditableDatapoint) (i : Str) :
    i ∈ matchedIds before after ↔
      (∃ dp ∈ after, dp.id = some i) ∧ (origFind before i).isSome = true := by
  unfold matchedIds
  rw [List.mem_filterMap]
  constructor
  · rintro ⟨dp, hdp, hfil⟩
    obtain ⟨hmem, hp⟩ := Option.filter_eq_some.mp hfil
    exact ⟨⟨dp, hdp, Option.mem_def.mp hmem⟩, hp⟩
  · rintro ⟨⟨dp, hdp, hid⟩, hp⟩
    exact ⟨dp, hdp, Option.filter_eq_some.mpr ⟨Option.mem_def.mpr hid, hp⟩⟩

theorem mem_reconcileRows_remaining (before : List Datapoint) :
    ∀ (after : List EditableDatapoint) (ids : List Str) (i : Str),
    i ∈ (reconcileRows before after ids).2.2 ↔ i ∈ ids ∧ i ∉ matchedIds before after := by
  intro after
  induction after with
  | nil =>
    intro ids i
    simp [reconcileRows, matchedIds]
  | cons dp rest ih =>
    intro ids i
    cases hdp : dp.id with
    | none =>
      have hm : matchedIds before (dp :: rest) = matchedIds before rest := by
        simp [matchedIds, hdp]
      simp only [reconcileRows, hdp, hm]
      exact ih ids i
    | some id =>
      cases hf : origFind before id with
      | some orig =>
        have hs : (origFind before id).isSome = true := by simp [hf]
        have hm : matchedIds before (dp :: rest) = id :: matchedIds before rest := by
          simp [matchedIds, hdp, Option.filter, hs]
        simp only [reconcileRows, hdp, hf, hm]
        have hsplit :
            (if needsUpdate dp orig then
              (Operation.update id dp.timestamp dp.value dp.comment ::
                (reconcileRows before rest (ids.filter (fun j => decide (j ≠ id)))).1,
               (reconcileRows before rest (ids.filter (fun j => decide (j ≠ id)))).2.1,
               (reconcileRows before rest (ids.filter (fun j => decide (j ≠ id)))).2.2)
             else reconcileRows before rest (ids.filter (fun j => decide (j ≠ id)))).2.2 =
            (reconcileRows before rest (ids.filter (fun j => decide (j ≠ id)))).2.2 := by
          split <;> rfl
        rw [hsplit, ih]
        simp only [List.mem_filter, decide_eq_true_eq, List.mem_cons, not_or]
        tauto
      | none =>
        have hs : (origFind before id).isSome = false := by simp [hf]
        have hm : matchedIds before (dp :: rest) = matchedIds before rest := by
          simp [matchedIds, hdp, Option.filter, hs]
        simp only [reconcileRows, hdp, hf, hm]
        exact ih ids i

theorem delete_not_mem_reconcileRows (before : List Datapoint) :
    ∀ (after : List EditableDatapoint) (ids : List Str) (i : Str),
    Operation.delete i ∉ (reconcileRows before after ids).1 := by
  intro after
  induction after with
  | nil => intro ids i; simp [reconcileRows]
  | cons dp rest ih =>
    intro ids i
    cases hdp : dp.id with
    | none =>
      simp only [reconcileRows, hdp]
      intro hmem
      rcases List.mem_cons.mp hmem with h | h
      · exact Operation.noConfusion h
      · exact ih ids i h
    | some id =>
      cases hf : origFind before id with
      | some orig =>
        simp only [reconcileRows, hdp, hf]
        split
        · intro hmem
          rcases List.mem_cons.mp hmem with h | h
          · exact Operation.noConfusion h
          · exact ih _ i h
        · exact ih _ i
      | none =>
        simp only [reconcileRows, hdp, hf]
        exact ih ids i

theorem needsUpdate_decodedRow (dp : Datapoint) (c : Str) (hc : dp.comment = some c) :
    needsUpdate (decodedRow dp) dp = false := by
  simp [needsUpdate, decodedRow, hc]

theorem reconcileRows_decoded (before : List Datapoint) :
    ∀ (rows : List Datapoint) (ids : List Str),
    (∀ dp ∈ rows, origFind before dp.id = some dp ∧ dp.comment ≠ none) →
    (reconcileRows before (rows.map decodedRow) ids).1 = [] ∧
    (reconcileRows before (rows.map decodedRow) ids).2.1 = [] := by
  intro rows
  induction rows with
  | nil => intro ids h; simp [reconcileRows]
  | cons dp rest ih =>
    intro ids h
    obtain ⟨hfind, hcomment⟩ := h dp (by simp)
    obtain ⟨c, hc⟩ := Option.ne_none_iff_exists'.mp hcomment
    have hrow : (decodedRow dp).id = some dp.id := rfl
    simp only [List.map_cons, reconcileRows, hrow, hfind,
      needsUpdate_decodedRow dp c hc, Bool.false_eq_true, if_false]
    exact ih _ (fun x hx => h x (by simp [hx]))

theorem reconcile_decoded (before : List Datapoint)
    (hnd : (before.map (fun dp => dp.id)).Nodup)
    (hcomment : ∀ dp ∈ before, dp.comment ≠ none) :
    (reconcile before (before.map decodedRow)).1 = [] ∧
    (reconcile before (before.map decodedRow)).2 = [] := by
  have hops := reconcileRows_decoded before before ((before.map (fun dp => dp.id)).dedup)
    (fun dp hdp => ⟨origFind_self before hnd dp hdp, hcomment dp hdp⟩)
  have hrem : (reconcileRows before (before.map decodedRow)
      ((before.map (fun dp => dp.id)).dedup)).2.2 = [] := by
    rw [List.eq_nil_iff_forall_not_mem]
    intro i hi
    obtain ⟨hin, hnotm⟩ := (mem_reconcileRows_remaining before _ _ i).mp hi
    have hib : i ∈ before.map (fun dp => dp.id) := List.mem_dedup.mp hin
    obtain ⟨dp, hdp, hdpi⟩ := List.mem_map.mp hib
    refine hnotm ((mem_matchedIds before _ i).mpr ⟨⟨decodedRow dp, ?_, ?_⟩, ?_⟩)
    · exact List.mem_map.mpr ⟨dp, hdp, rfl⟩
    · simp [decodedRow, hdpi]
    · exact (origFind_isSome before i).mpr hib
  simp [reconcile, hops.1, hops.2, hrem]

/-! ## Properties of the apply phase -/

theorem applyRows_no_delete (fails : Operation → Bool) (before : List Datapoint) :
    ∀ (after : List EditableDatapoint) (ids : List Str) (op : Operation),
    op ∈ (applyRows fails before after ids).1 → op.isDelete = false := by
  intro after
  induction after with
  | nil =>
    intro ids op h
    simp [applyRows] at h
  | cons dp rest ih =>
    intro ids op h
    cases hdp : dp.id with
    | none =>
      simp only [applyRows, hdp] at h
      split at h
      · simp at h
        subst h
        rfl
      · rcases List.mem_cons.mp h with rfl | h2
        · rfl
        · exact ih _ op h2
    | some id =>
      cases hf : origFind before id with
      | some orig =>
        simp only [applyRows, hdp, hf] at h
        split at h
        · split at h
          · simp at h
            subst h
            rfl
          · rcases List.mem_cons.mp h with rfl | h2
            · rfl
            · exact ih _ op h2
        · exact ih _ op h
      | none =>
        simp only [applyRows, hdp, hf] at h
        exact ih ids op h

theorem applyDeletes_all_delete (fails : Operation → Bool) :
    ∀ (ids : List Str) (op : Operation),
    op ∈ (applyDeletes fails ids).1 → op.isDelete = true := by
  intro ids
  induction ids with
  | nil =>
    intro op h
    simp [applyDeletes] at h
  | cons id rest ih =>
    intro op h
    simp only [applyDeletes] at h
    split at h
    · simp at h
      subst h
      rfl
    · rcases List.mem_cons.mp h with rfl | h2
      · rfl
      · exact ih op h2

theorem applyRows_failSpec (fails : Operation → Bool) (before : List Datapoint) :
    ∀ (after : List EditableDatapoint) (ids : List Str),
    ((applyRows fails before after ids).2.2.2 = true →
      ∀ op ∈ (applyRows fails before after ids).1, fails op = false) ∧
    ((applyRows fails before after ids).2.2.2 = false →
      ∃ pre fop, (applyRows fails before after ids).1 = pre ++ [fop] ∧
        (∀ o ∈ pre, fails o = false) ∧ fails fop = true) := by
  intro after
  induction after with
  | nil =>
    intro ids
    constructor
    · intro _ op h
      simp [applyRows] at h
    · intro h
      simp [applyRows] at h
  | cons dp rest ih =>
    intro ids
    cases hdp : dp.id with
    | none =>
      by_cases hfv : fails (Operation.create dp.timestamp (dp.value.getD 0) dp.comment) = true
      · constructor
        · intro h
          simp [applyRows, hdp, hfv] at h
        · intro _
          refine ⟨[], Operation.create dp.timestamp (dp.value.getD 0) dp.comment, ?_, ?_, hfv⟩
          · simp [applyRows, hdp, hfv]
          · simp
      · have hfv2 : fails (Operation.create dp.timestamp (dp.value.getD 0) dp.comment) = false :=
          Bool.eq_false_iff.mpr hfv
        constructor
        · intro h op hop
          simp only [applyRows, hdp, hfv2, Bool.false_eq_true, if_false] at h hop
          rcases List.mem_cons.mp hop with rfl | h2
          · exact hfv2
          · exact (ih ids).1 h op h2
        · intro h
          simp only [applyRows, hdp, hfv2, Bool.false_eq_true, if_false] at h ⊢
          obtain ⟨pre, fop, he, hpre, hfop⟩ := (ih ids).2 h
          refine ⟨Operation.create dp.timestamp (dp.value.getD 0) dp.comment :: pre, fop, ?_, ?_, hfop⟩
          · simp [he]
          · intro o ho
            rcases List.mem_cons.mp ho with rfl | h2
            · exact hfv2
            · exact hpre o h2
    | some id =>
      cases hf : origFind before id with
      | some orig =>
        by_cases hup : needsUpdate dp orig = true
        · by_cases hfv : fails (Operation.update id dp.timestamp dp.value dp.comment) = true
          · constructor
            · intro h
              simp [applyRows, hdp, hf, hup, hfv] at h
            · intro _
              refine ⟨[], Operation.update id dp.timestamp dp.value dp.comment, ?_, ?_, hfv⟩
              · simp [applyRows, hdp, hf, hup, hfv]
              · simp
          · have hfv2 : fails (Operation.update id dp.timestamp dp.value dp.comment) = false :=
              Bool.eq_false_iff.mpr hfv
            constructor
            · intro h op hop
              simp only [applyRows, hdp, hf, hup, if_true, hfv2, Bool.false_eq_true,
                if_false] at h hop
              rcases List.mem_cons.mp hop with rfl | h2
              · exact hfv2
              · exact (ih _).1 h op h2
            · intro h
              simp only [applyRows, hdp, hf, hup, if_true, hfv2, Bool.false_eq_true,
                if_false] at h ⊢
              obtain ⟨pre, fop, he, hpre, hfop⟩ := (ih _).2 h
              simp only [decide_not] at he
              refine ⟨Operation.update id dp.timestamp dp.value dp.comment :: pre, fop, ?_, ?_, hfop⟩
              · simp [he]
              · intro o ho
                rcases List.mem_cons.mp ho with rfl | h2
                · exact hfv2
                · exact hpre o h2
        · have hup2 : needsUpdate dp orig = false := Bool.eq_false_iff.mpr hup
          constructor
          · intro h op hop
            simp only [applyRows, hdp, hf, hup2, Bool.false_eq_true, if_false] at h hop
            exact (ih _).1 h op hop
          · intro h
            simp only [applyRows, hdp, hf, hup2, Bool.false_eq_true, if_false] at h ⊢
            exact (ih _).2 h
      | none =>
        constructor
        · intro h op hop
          simp only [applyRows, hdp, hf] at h hop
          exact (ih ids).1 h op hop
        · intro h
          simp only [applyRows, hdp, hf] at h ⊢
          exact (ih ids).2 h

theorem applyDeletes_failSpec (fails : Operation → Bool) :
    ∀ (ids : List Str),
    ((applyDeletes fails ids).2 = true → ∀ op ∈ (applyDeletes fails ids).1, fails op = false) ∧
    ((applyDeletes fails ids).2 = false →
      ∃ pre fop, (applyDeletes fails ids).1 = pre ++ [fop] ∧
        (∀ o ∈ pre, fails o = false) ∧ fails fop = true) := by
  intro ids
  induction ids with
  | nil =>
    constructor
    · intro _ op h
      simp [applyDeletes] at h
    · intro h
      simp [applyDeletes] at h
  | cons id rest ih =>
    by_cases hfv : fails (Operation.delete id) = true
    · constructor
      · intro h
        simp [applyDeletes, hfv] at h
      · intro _
        exact ⟨[], Operation.delete id, by simp [applyDeletes, hfv], by simp, hfv⟩
    · have hfv2 : fails (Operation.delete id) = false := Bool.eq_false_iff.mpr hfv
      constructor
      · intro h op hop
        simp only [applyDeletes, hfv2, Bool.false_eq_true, if_false] at h hop
        rcases List.mem_cons.mp hop with rfl | h2
        · exact hfv2
        · exact ih.1 h op h2
      · intro h
        simp only [applyDeletes, hfv2, Bool.false_eq_true, if_false] at h ⊢
        obtain ⟨pre, fop, he, hpre, hfop⟩ := ih.2 h
        refine ⟨Operation.delete id :: pre, fop, by simp [he], ?_, hfop⟩
        intro o ho
        rcases List.mem_cons.mp ho with rfl | h2
        · exact hfv2
        · exact hpre o h2

/-! ## Malformed lines abort the decode -/

/-- A data line the decoder must reject: a missing value field (which a
blank line in particular has) or an unparseable timestamp or value. -/
def malformedLine (offset : Int) (l : Str) : Prop :=
  (splitTab l).length < 2 ∨
    (∃ s, (splitTab l)[0]? = some s ∧ parseTimestamp offset s = none) ∨
    (∃ s, (splitTab l)[1]? = some s ∧ parseValue s = none)

theorem parseLine_bad (offset : Int) (l : Str) (h : malformedLine offset l) :
    ∃ e, parseLine offset l = Except.error e := by
  cases h0 : (splitTab l)[0]? with
  | none => exact ⟨"Missing date", by simp [parseLine, h0]⟩
  | some s0 =>
    cases h1 : (splitTab l)[1]? with
    | none => exact ⟨"Missing value", by simp [parseLine, h0, h1]⟩
    | some s1 =>
      cases ht : parseTimestamp offset s0 with
      | none => exact ⟨"invalid date", by simp [parseLine, h0, h1, ht]⟩
      | some t =>
        cases hv : parseValue s1 with
        | none => exact ⟨"invalid value", by simp [parseLine, h0, h1, ht, hv]⟩
        | some v =>
          exfalso
          rcases h with hlen | ⟨s, hs, hsn⟩ | ⟨s, hs, hsn⟩
          · obtain ⟨hlt, _⟩ := List.getElem?_eq_some.mp h1
            omega
          · rw [h0] at hs
            rw [Option.some.inj hs] at ht
            rw [ht] at hsn
            exact Option.noConfusion hsn
          · rw [h1] at hs
            rw [Option.some.inj hs] at hv
            rw [hv] at hsn
            exact Option.noConfusion hsn

theorem readLines_bad (offset : Int) :
    ∀ (ls : List Str), (∃ l ∈ ls, malformedLine offset l) →
    ∃ e, readLines offset ls = Except.error e := by
  intro ls
  induction ls with
  | nil =>
    rintro ⟨l, hmem, _⟩
    simp at hmem
  | cons l rest ih =>
    rintro ⟨l0, hl0, hbad⟩
    rcases List.mem_cons.mp hl0 with rfl | hmem
    · obtain ⟨e, he⟩ := parseLine_bad offset l0 hbad
      exact ⟨e, by simp [readLines, he]⟩
    · cases hp : parseLine offset l with
      | error e => exact ⟨e, by simp [readLines, hp]⟩
      | ok dp =>
        obtain ⟨e, he⟩ := ih ⟨l0, hmem, hbad⟩
        exact ⟨e, by simp [readLines, hp, he]⟩

theorem needsUpdate_iff (dp : EditableDatapoint) (orig : Datapoint) :
    needsUpdate dp orig = true ↔
      (dp.value ≠ some orig.value ∨ dp.timestamp ≠ some orig.timestamp ∨
        dp.comment ≠ orig.comment) := by
  simp [needsUpdate, or_assoc]

/-! ## The claims -/

/-- Claim C1, counterexample: a datapoint whose comment is absent (so that no
comment contains a tab or a newline) does not round trip to zero operations:
encode then decode yields the comment `some ""`, which the update test of
`edit_datapoints` compares unequal to `None`, so reconciliation emits a
spurious `Update`. -/
theorem claim_C1_counterexample :
    (⟨"a".data, 0, 1, none⟩ : Datapoint).comment = none ∧
    read_datapoints_tsv 0 (write_datapoints_tsv 0 [⟨"a".data, 0, 1, none⟩]) =
      Except.ok [⟨some "a".data, some 0, some 1, some []⟩] ∧
    (reconcile [⟨"a".data, 0, 1, none⟩] [⟨some "a".data, some 0, some 1, some []⟩]).1 ≠ [] ∧
    (reconcile [⟨"a".data, 0, 1, none⟩] [⟨some "a".data, some 0, some 1, some []⟩]).1 =
      [Operation.update "a".data (some 0) (some 1) (some [])] :=
  ⟨rfl, rfl, by decide, by decide⟩

/-- Claim C1, amended: for every sequence of remote datapoints with unique,
nonempty, tab- and newline-free ids (the data-model invariants for
service-assigned ids) in which every comment is present and contains no tab
or newline, encoding with `write_datapoints_tsv` and decoding with
`read_datapoints_tsv` succeeds, and reconciling the result against the
original sequence yields zero mutation operations. -/
theorem claim_C1 (offset : Int) (before : List Datapoint)
    (hnd : (before.map (fun dp => dp.id)).Nodup)
    (hid : ∀ dp ∈ before, dp.id ≠ [] ∧ '\t' ∉ dp.id ∧ '\n' ∉ dp.id)
    (hcomment : ∀ dp ∈ before, ∃ c, dp.comment = some c ∧ '\t' ∉ c ∧ '\n' ∉ c) :
    read_datapoints_tsv offset (write_datapoints_tsv offset before) =
      Except.ok (before.map decodedRow) ∧
    (reconcile before (before.map decodedRow)).1 = [] := by
  have h1 : ∀ dp ∈ before, dp.id ≠ [] ∧ '\t' ∉ dp.id ∧ '\t' ∉ dp.comment.getD [] := by
    intro dp hdp
    obtain ⟨hne, hnt, _⟩ := hid dp hdp
    obtain ⟨c, hc, hct, _⟩ := hcomment dp hdp
    refine ⟨hne, hnt, ?_⟩
    rw [hc]
    exact hct
  refine ⟨read_write offset before h1, ?_⟩
  refine (reconcile_decoded before hnd (fun dp hdp => ?_)).1
  obtain ⟨c, hc, _⟩ := hcomment dp hdp
  simp [hc]

/-- Witness for the amended claim C1 at a concrete one-row snapshot. -/
theorem claim_C1_witness :
    read_datapoints_tsv 2 (write_datapoints_tsv 2 [⟨"a".data, 5, 3, some "note".data⟩]) =
      Except.ok ([⟨"a".data, 5, 3, some "note".data⟩].map decodedRow) ∧
    (reconcile [⟨"a".data, 5, 3, some "note".data⟩]
      ([⟨"a".data, 5, 3, some "note".data⟩].map decodedRow)).1 = [] :=
  claim_C1 2 [⟨"a".data, 5, 3, some "note".data⟩] (by decide) (by decide)
    (fun dp hdp => by
      rcases List.mem_singleton.mp hdp with rfl
      exact ⟨"note".data, rfl, by decide, by decide⟩)

/-- Claim C2, counterexample: two new rows reconcile to two `Create`
operations, and when the remote call for the first one fails, the second
operation — computed after the failing one — is never attempted: the `?`
operator aborts the session. -/
theorem claim_C2_counterexample :
    read_datapoints_tsv 0 [headerLine, "0\t1\t\t".data, "0\t2\t\t".data] =
      Except.ok [⟨none, some 0, some 1, some []⟩, ⟨none, some 0, some 2, some []⟩] ∧
    (reconcile [] [⟨none, some 0, some 1, some []⟩, ⟨none, some 0, some 2, some []⟩]).1 =
      [Operation.create (some 0) 1 (some []), Operation.create (some 0) 2 (some [])] ∧
    (fun op => decide (op = Operation.create (some 0) 1 (some [])))
      (Operation.create (some 0) 1 (some [])) = true ∧
    (edit_datapoints (fun op => decide (op = Operation.create (some 0) 1 (some []))) 0 (some 0)
      [headerLine, "0\t1\t\t".data, "0\t2\t\t".data] []).attempted =
      [Operation.create (some 0) 1 (some [])] ∧
    Operation.create (some 0) 2 (some []) ∉
      (edit_datapoints (fun op => decide (op = Operation.create (some 0) 1 (some []))) 0 (some 0)
        [headerLine, "0\t1\t\t".data, "0\t2\t\t".data] []).attempted :=
  ⟨rfl, by decide, by decide, by decide, by decide⟩

/-- Claim C2, amended: the failure of one remote operation aborts the apply
phase of the edit session: when the session returns Ok every attempted
operation succeeded, and when it fails the attempted trace is empty or ends
at its first failing operation, so no operation after a failing one is
attempted. -/
theorem claim_C2 (fails : Operation → Bool) (offset : Int) (editorExit : Option Int)
    (editedLines : List Str) (before : List Datapoint) :
    ((edit_datapoints fails offset editorExit editedLines before).ok = true →
      ∀ op ∈ (edit_datapoints fails offset editorExit editedLines before).attempted,
        fails op = false) ∧
    ((edit_datapoints fails offset editorExit editedLines before).ok = false →
      (edit_datapoints fails offset editorExit editedLines before).attempted = [] ∨
      ∃ pre fop,
        (edit_datapoints fails offset editorExit editedLines before).attempted =
          pre ++ [fop] ∧ (∀ o ∈ pre, fails o = false) ∧ fails fop = true) := by
  cases editorExit with
  | none =>
    refine ⟨fun h => ?_, fun _ => Or.inl rfl⟩
    simp [edit_datapoints] at h
  | some code =>
    cases hread : read_datapoints_tsv offset editedLines with
    | error e =>
      refine ⟨fun h => ?_, fun _ => Or.inl ?_⟩
      · simp [edit_datapoints, hread] at h
      · simp [edit_datapoints, hread]
    | ok after =>
      have hA := applyRows_failSpec fails before after ((before.map (fun dp => dp.id)).dedup)
      cases hok : (applyRows fails before after ((before.map (fun dp => dp.id)).dedup)).2.2.2 with
      | false =>
        have hE : edit_datapoints fails offset (some code) editedLines before =
            ⟨(applyRows fails before after ((before.map (fun dp => dp.id)).dedup)).1,
             (applyRows fails before after ((before.map (fun dp => dp.id)).dedup)).2.1,
             false⟩ := by
          simp [edit_datapoints, hread, hok]
        rw [hE]
        refine ⟨fun h => ?_, fun _ => Or.inr ?_⟩
        · simp at h
        · exact hA.2 hok
      | true =>
        have hD := applyDeletes_failSpec fails
          ((applyRows fails before after ((before.map (fun dp => dp.id)).dedup)).2.2.1)
        have hE : edit_datapoints fails offset (some code) editedLines before =
            ⟨(applyRows fails before after ((before.map (fun dp => dp.id)).dedup)).1 ++
              (applyDeletes fails
                ((applyRows fails before after
                  ((before.map (fun dp => dp.id)).dedup)).2.2.1)).1,
             (applyRows fails before after ((before.map (fun dp => dp.id)).dedup)).2.1,
             (applyDeletes fails
               ((applyRows fails before after
                 ((before.map (fun dp => dp.id)).dedup)).2.2.1)).2⟩ := by
          simp [edit_datapoints, hread, hok]
        rw [hE]
        constructor
        · intro h op hop
          rcases List.mem_append.mp hop with h1 | h2
          · exact hA.1 hok op h1
          · exact hD.1 h op h2
        · intro h
          right
          obtain ⟨pre, fop, he, hpre, hfop⟩ := hD.2 h
          refine ⟨(applyRows fails before after ((before.map (fun dp => dp.id)).dedup)).1 ++ pre,
            fop, ?_, ?_, hfop⟩
          · rw [he, List.append_assoc]
          · intro o ho
            rcases List.mem_append.mp ho with h1 | h2
            · exact hA.1 hok o h1
            · exact hpre o h2

/-- Witness for the amended claim C2: at a session whose first create fails,
the attempted trace ends at that failing operation. -/
theorem claim_C2_witness :
    (edit_datapoints (fun op => decide (op = Operation.create (some 0) 1 (some []))) 0 (some 0)
      [headerLine, "0\t1\t\t".data, "0\t2\t\t".data] []).attempted = [] ∨
    ∃ pre fop,
      (edit_datapoints (fun op => decide (op = Operation.create (some 0) 1 (some []))) 0 (some 0)
        [headerLine, "0\t1\t\t".data, "0\t2\t\t".data] []).attempted = pre ++ [fop] ∧
      (∀ o ∈ pre, (fun op => decide (op = Operation.create (some 0) 1 (some []))) o = false) ∧
      (fun op => decide (op = Operation.create (some 0) 1 (some []))) fop = true :=
  (claim_C2 (fun op => decide (op = Operation.create (some 0) 1 (some []))) 0 (some 0)
    [headerLine, "0\t1\t\t".data, "0\t2\t\t".data] []).2 (by decide)

/-- Claim C3, counterexample: the editor exits with status 1 (nonzero), yet
the session is not aborted: the file is decoded, reconciliation runs, a
`Create` is issued and the session reports success — the code never
inspects the exit status returned by `status()`. -/
theorem claim_C3_counterexample :
    (some 1 : Option Int) ≠ none ∧
    (edit_datapoints (fun _ => false) 0 (some 1) [headerLine, "0\t1\t\t".data] []).attempted =
      [Operation.create (some 0) 1 (some [])] ∧
    (edit_datapoints (fun _ => false) 0 (some 1) [headerLine, "0\t1\t\t".data] []).ok = true :=
  ⟨by decide, by decide, by decide⟩

/-- Claim C3, amended: only a spawn failure of the editor aborts the edit
session (nothing is decoded, no mutation is attempted, the session fails);
the exit status of a finished editor process is never inspected, so any two
exit codes produce identical sessions. -/
theorem claim_C3 (fails : Operation → Bool) (offset : Int) (editedLines : List Str)
    (before : List Datapoint) :
    edit_datapoints fails offset none editedLines before =
      ⟨[], [], false⟩ ∧
    ∀ c1 c2 : Int, edit_datapoints fails offset (some c1) editedLines before =
      edit_datapoints fails offset (some c2) editedLines before :=
  ⟨rfl, fun _ _ => rfl⟩

/-- Claim C4: an after-row whose id matches a before-row emits an `Update`
carrying its fields if and only if its value, timestamp or comment differs
from the matched row under exact equality, and emits nothing otherwise. -/
theorem claim_C4 (before : List Datapoint) (rest : List EditableDatapoint) (ids : List Str)
    (dp : EditableDatapoint) (i : Str) (orig : Datapoint)
    (hid : dp.id = some i) (hfind : origFind before i = some orig) :
    (reconcileRows before (dp :: rest) ids).1 =
      if dp.value ≠ some orig.value ∨ dp.timestamp ≠ some orig.timestamp ∨
          dp.comment ≠ orig.comment then
        Operation.update i dp.timestamp dp.value dp.comment ::
          (reconcileRows before rest (ids.filter (fun j => decide (j ≠ i)))).1
      else (reconcileRows before rest (ids.filter (fun j => decide (j ≠ i)))).1 := by
  simp only [reconcileRows, hid, hfind]
  by_cases h : dp.value ≠ some orig.value ∨ dp.timestamp ≠ some orig.timestamp ∨
      dp.comment ≠ orig.comment
  · rw [if_pos ((needsUpdate_iff dp orig).mpr h), if_pos h]
  · rw [if_neg (fun hb => h ((needsUpdate_iff dp orig).mp hb)), if_neg h]

/-- Witness for claim C4 at a matched row whose value changed. -/
theorem claim_C4_witness :
    (⟨some "a".data, some 0, some 2, some []⟩ : EditableDatapoint).id = some "a".data ∧
    origFind [⟨"a".data, 0, 1, some []⟩] "a".data = some ⟨"a".data, 0, 1, some []⟩ ∧
    (reconcileRows [⟨"a".data, 0, 1, some []⟩]
      [⟨some "a".data, some 0, some 2, some []⟩] ["a".data]).1 =
      (if (⟨some "a".data, some 0, some 2, some []⟩ : EditableDatapoint).value ≠
            some (⟨"a".data, 0, 1, some []⟩ : Datapoint).value ∨
          (⟨some "a".data, some 0, some 2, some []⟩ : EditableDatapoint).timestamp ≠
            some (⟨"a".data, 0, 1, some []⟩ : Datapoint).timestamp ∨
          (⟨some "a".data, some 0, some 2, some []⟩ : EditableDatapoint).comment ≠
            (⟨"a".data, 0, 1, some []⟩ : Datapoint).comment then
        Operation.update "a".data (some 0) (some 2) (some []) ::
          (reconcileRows [⟨"a".data, 0, 1, some []⟩] []
            (["a".data].filter (fun j => decide (j ≠ "a".data)))).1
      else
        (reconcileRows [⟨"a".data, 0, 1, some []⟩] []
          (["a".data].filter (fun j => decide (j ≠ "a".data)))).1) :=
  ⟨rfl, rfl,
    claim_C4 [⟨"a".data, 0, 1, some []⟩] [] ["a".data]
      ⟨some "a".data, some 0, some 2, some []⟩ "a".data ⟨"a".data, 0, 1, some []⟩ rfl rfl⟩

/-- Claim C5: when any data line is malformed — a missing value field (a
blank line in particular) or an unparseable timestamp or value — the whole
decode returns an error with no partial row sequence, and the edit session
issues no remote mutation and fails. -/
theorem claim_C5 (offset : Int) (lines : List Str) (fails : Operation → Bool)
    (editorExit : Option Int) (before : List Datapoint)
    (h : ∃ l ∈ lines.drop 1, malformedLine offset l) :
    (∃ e, read_datapoints_tsv offset lines = Except.error e) ∧
    (edit_datapoints fails offset editorExit lines before).attempted = [] ∧
    (edit_datapoints fails offset editorExit lines before).ok = false := by
  obtain ⟨e, he⟩ := readLines_bad offset (lines.drop 1) h
  have he2 : read_datapoints_tsv offset lines = Except.error e := he
  refine ⟨⟨e, he2⟩, ?_, ?_⟩ <;>
  · cases editorExit with
    | none => rfl
    | some c => simp [edit_datapoints, he2]

/-- Witness for claim C5 at a table containing one blank data line. -/
theorem claim_C5_witness :
    (∃ e, read_datapoints_tsv 0 [headerLine, []] = Except.error e) ∧
    (edit_datapoints (fun _ => false) 0 (some 0) [headerLine, []] []).attempted = [] ∧
    (edit_datapoints (fun _ => false) 0 (some 0) [headerLine, []] []).ok = false :=
  claim_C5 0 [headerLine, []] (fun _ => false) (some 0) []
    ⟨[], by decide, Or.inl (by decide)⟩

/-- Claim C6: a `Delete` is emitted for exactly the before-row ids that
appear as the id of no after-row, and an empty after sequence reconciles to
one delete per before-row id and nothing else. -/
theorem claim_C6 :
    (∀ (before : List Datapoint) (after : List EditableDatapoint) (i : Str),
      Operation.delete i ∈ (reconcile before after).1 ↔
        (i ∈ before.map (fun dp => dp.id) ∧ ¬ ∃ dp ∈ after, dp.id = some i)) ∧
    (∀ before : List Datapoint,
      reconcile before [] =
        (((before.map (fun dp => dp.id)).dedup).map Operation.delete, [])) := by
  constructor
  · intro before after i
    simp only [reconcile]
    rw [List.mem_append]
    constructor
    · rintro (h1 | h2)
      · exact absurd h1 (delete_not_mem_reconcileRows before after _ i)
      · obtain ⟨j, hj, he⟩ := List.mem_map.mp h2
        have hji : j = i := by injection he
        subst hji
        obtain ⟨hin, hnm⟩ := (mem_reconcileRows_remaining before after _ j).mp hj
        refine ⟨List.mem_dedup.mp hin, ?_⟩
        rintro ⟨dp, hdp, hdpid⟩
        exact hnm ((mem_matchedIds before after j).mpr
          ⟨⟨dp, hdp, hdpid⟩, (origFind_isSome before j).mpr (List.mem_dedup.mp hin)⟩)
    · rintro ⟨hib, hnotafter⟩
      right
      refine List.mem_map.mpr ⟨i, ?_, rfl⟩
      refine (mem_reconcileRows_remaining before after _ i).mpr
        ⟨List.mem_dedup.mpr hib, ?_⟩
      intro hm
      obtain ⟨⟨dp, hdp, hdpid⟩, _⟩ := (mem_matchedIds before after i).mp hm
      exact hnotafter ⟨dp, hdp, hdpid⟩
  · intro before
    simp [reconcile, reconcileRows]

/-- The loop treats an orphan after-row (an id matching no before-row) as a
report only: the operations and the remaining delete set are those of the
same after sequence without the orphan, and the orphan id is reported. -/
theorem reconcileRows_orphan (before : List Datapoint) (dpo : EditableDatapoint) (i : Str)
    (hid : dpo.id = some i) (hnm : i ∉ before.map (fun dp => dp.id)) :
    ∀ (l1 l2 : List EditableDatapoint) (ids : List Str),
    (reconcileRows before (l1 ++ dpo :: l2) ids).1 =
      (reconcileRows before (l1 ++ l2) ids).1 ∧
    (reconcileRows before (l1 ++ dpo :: l2) ids).2.2 =
      (reconcileRows before (l1 ++ l2) ids).2.2 ∧
    i ∈ (reconcileRows before (l1 ++ dpo :: l2) ids).2.1 := by
  have hfind : origFind before i = none := origFind_eq_none before i hnm
  intro l1
  induction l1 with
  | nil =>
    intro l2 ids
    simp [List.nil_append, reconcileRows, hid, hfind]
  | cons h1 t1 ih =>
    intro l2 ids
    cases hdp : h1.id with
    | none =>
      simp only [List.cons_append, reconcileRows, hdp, List.append_eq]
      exact ⟨by rw [(ih l2 ids).1], by rw [(ih l2 ids).2.1], (ih l2 ids).2.2⟩
    | some id =>
      cases hf : origFind before id with
      | some orig =>
        simp only [List.cons_append, reconcileRows, hdp, hf, List.append_eq]
        refine ⟨?_, ?_, ?_⟩
        · split
          · rw [(ih l2 _).1]
          · rw [(ih l2 _).1]
        · split
          · rw [(ih l2 _).2.1]
          · rw [(ih l2 _).2.1]
        · split
          · exact (ih l2 _).2.2
          · exact (ih l2 _).2.2
      | none =>
        simp only [List.cons_append, reconcileRows, hdp, hf, List.append_eq]
        refine ⟨by rw [(ih l2 ids).1], by rw [(ih l2 ids).2.1], ?_⟩
        simp only [List.mem_cons]
        exact Or.inr (ih l2 ids).2.2

/-- Claim C7: an orphan after-row is reported and contributes no operation,
and the operations emitted for every other row — including the final
deletes — are unchanged by its presence. -/
theorem claim_C7 (before : List Datapoint) (l1 l2 : List EditableDatapoint)
    (dpo : EditableDatapoint) (i : Str)
    (hid : dpo.id = some i) (hnm : i ∉ before.map (fun dp => dp.id)) :
    (reconcile before (l1 ++ dpo :: l2)).1 = (reconcile before (l1 ++ l2)).1 ∧
    i ∈ (reconcile before (l1 ++ dpo :: l2)).2 := by
  have h := reconcileRows_orphan before dpo i hid hnm l1 l2
    ((before.map (fun dp => dp.id)).dedup)
  simp only [reconcile]
  exact ⟨by rw [h.1, h.2.1], h.2.2⟩

/-- Witness for claim C7 at a one-row snapshot and one orphan row. -/
theorem claim_C7_witness :
    (reconcile [⟨"a".data, 0, 1, some []⟩]
      ([] ++ ⟨some "z".data, some 0, some 5, some []⟩ :: [])).1 =
      (reconcile [⟨"a".data, 0, 1, some []⟩] ([] ++ [])).1 ∧
    "z".data ∈ (reconcile [⟨"a".data, 0, 1, some []⟩]
      ([] ++ ⟨some "z".data, some 0, some 5, some []⟩ :: [])).2 :=
  claim_C7 [⟨"a".data, 0, 1, some []⟩] [] []
    ⟨some "z".data, some 0, some 5, some []⟩ "z".data rfl (by decide)

/-- Claim C8: the trace of operations an edit session attempts against the
remote API always splits into a prefix of updates and creates followed by a
suffix of deletes, whatever the inputs and whatever the oracle of remote
failures: every update and create is issued before any delete. -/
theorem claim_C8 (fails : Operation → Bool) (offset : Int) (editorExit : Option Int)
    (editedLines : List Str) (before : List Datapoint) :
    ∃ ucPart delPart,
      (edit_datapoints fails offset editorExit editedLines before).attempted =
        ucPart ++ delPart ∧
      (∀ op ∈ ucPart, Operation.isDelete op = false) ∧
      (∀ op ∈ delPart, Operation.isDelete op = true) := by
  cases editorExit with
  | none => exact ⟨[], [], rfl, by simp, by simp⟩
  | some code =>
    cases hread : read_datapoints_tsv offset editedLines with
    | error e =>
      refine ⟨[], [], ?_, by simp, by simp⟩
      simp [edit_datapoints, hread]
    | ok after =>
      cases hok : (applyRows fails before after ((before.map (fun dp => dp.id)).dedup)).2.2.2 with
      | true =>
        refine ⟨(applyRows fails before after ((before.map (fun dp => dp.id)).dedup)).1,
          (applyDeletes fails
            ((applyRows fails before after ((before.map (fun dp => dp.id)).dedup)).2.2.1)).1,
          ?_, ?_, ?_⟩
        · simp [edit_datapoints, hread, hok]
        · exact fun op h => applyRows_no_delete fails before after _ op h
        · exact fun op h => applyDeletes_all_delete fails _ op h
      | false =>
        refine ⟨(applyRows fails before after ((before.map (fun dp => dp.id)).dedup)).1, [],
          ?_, ?_, by simp⟩
        · simp [edit_datapoints, hread, hok]
        · exact fun op h => applyRows_no_delete fails before after _ op h

/-- Claim C9: a decoded row's id is absent exactly when the fourth
tab-field is missing or empty, and an after-row with absent id contributes
exactly one `Create` carrying its timestamp, value and comment, touching
neither the orphan reports nor the delete set. -/
theorem claim_C9 (offset : Int) (line : Str) (dp : EditableDatapoint)
    (before : List Datapoint) (rest : List EditableDatapoint) (ids : List Str) :
    (parseLine offset line = Except.ok dp →
      (dp.id = none ↔
        ((splitTab line)[3]? = none ∨ (splitTab line)[3]? = some []))) ∧
    (dp.id = none →
      (reconcileRows before (dp :: rest) ids).1 =
        Operation.create dp.timestamp (dp.value.getD 0) dp.comment ::
          (reconcileRows before rest ids).1 ∧
      (reconcileRows before (dp :: rest) ids).2.1 = (reconcileRows before rest ids).2.1 ∧
      (reconcileRows before (dp :: rest) ids).2.2 = (reconcileRows before rest ids).2.2) := by
  constructor
  · intro h
    have hid : dp.id = ((splitTab line)[3]?).filter (fun s => !s.isEmpty) := by
      unfold parseLine at h
      split at h
      · exact absurd h (by simp)
      · split at h
        · exact absurd h (by simp)
        · split at h
          · exact absurd h (by simp)
          · split at h
            · exact absurd h (by simp)
            · injection h with h2
              rw [← h2]
    rw [hid]
    cases h3 : (splitTab line)[3]? with
    | none => simp [Option.filter]
    | some s =>
      cases s with
      | nil => simp [Option.filter]
      | cons c cs => simp [Option.filter]
  · intro hidn
    simp [reconcileRows, hidn]

/-- Witness for claim C9 at a line whose fourth field is the empty string. -/
theorem claim_C9_witness :
    ((⟨none, some 0, some 1, some []⟩ : EditableDatapoint).id = none ↔
      ((splitTab "0\t1\t\t".data)[3]? = none ∨ (splitTab "0\t1\t\t".data)[3]? = some [])) ∧
    ((reconcileRows [] [⟨none, some 0, some 1, some []⟩] []).1 =
      Operation.create (some 0) ((some (1 : Int)).getD 0) (some []) ::
        (reconcileRows [] [] ([] : List Str)).1 ∧
    (reconcileRows [] [⟨none, some 0, some 1, some []⟩] []).2.1 =
      (reconcileRows [] [] ([] : List Str)).2.1 ∧
    (reconcileRows [] [⟨none, some 0, some 1, some []⟩] []).2.2 =
      (reconcileRows [] [] ([] : List Str)).2.2) :=
  ⟨(claim_C9 0 "0\t1\t\t".data ⟨none, some 0, some 1, some []⟩ [] [] []).1 rfl,
   (claim_C9 0 "0\t1\t\t".data ⟨none, some 0, some 1, some []⟩ [] [] []).2 rfl⟩

/-- Claim C10, counterexample: for a datapoint with id abc123 and the
comment watch-tab-out, decode of encode yields the comment `watch` and the
id `out` — the comment's tail lands in the id position while the id does
not land in the comment position, and the true id is dropped entirely. -/
theorem claim_C10_counterexample :
    read_datapoints_tsv 0
      (write_datapoints_tsv 0 [⟨"abc123".data, 0, 1, some "watch\tout".data⟩]) =
      Except.ok [⟨some "out".data, some 0, some 1, some "watch".data⟩] ∧
    some "watch".data ≠ some "abc123".data ∧
    some "out".data ≠ some "abc123".data :=
  ⟨rfl, by decide, by decide⟩

/-- Claim C10, amended: a data line with more than four tab-separated
fields is decoded positionally from its first four fields and every further
field is silently discarded without error; consequently a tab inside a
comment shifts the comment's tail into the id position and drops the true
id and any trailing text. -/
theorem claim_C10 (offset : Int) (line junk : Str) (h : 4 ≤ (splitTab line).length) :
    parseLine offset (line ++ '\t' :: junk) = parseLine offset line := by
  have hsplit : splitTab (line ++ '\t' :: junk) = splitTab line ++ splitTab junk :=
    splitTab_append line junk
  have h0 : (splitTab (line ++ '\t' :: junk))[0]? = (splitTab line)[0]? := by
    rw [hsplit]
    exact List.getElem?_append_left (by omega)
  have h1 : (splitTab (line ++ '\t' :: junk))[1]? = (splitTab line)[1]? := by
    rw [hsplit]
    exact List.getElem?_append_left (by omega)
  have h2 : (splitTab (line ++ '\t' :: junk))[2]? = (splitTab line)[2]? := by
    rw [hsplit]
    exact List.getElem?_append_left (by omega)
  have h3 : (splitTab (line ++ '\t' :: junk))[3]? = (splitTab line)[3]? := by
    rw [hsplit]
    exact List.getElem?_append_left (by omega)
  unfold parseLine
  rw [h0, h1, h2, h3]

/-- Witness for the amended claim C10 at a four-field line with junk. -/
theorem claim_C10_witness :
    4 ≤ (splitTab "0\t1\tc\tid".data).length ∧
    parseLine 0 ("0\t1\tc\tid".data ++ '\t' :: "junk".data) =
      parseLine 0 "0\t1\tc\tid".data :=
  ⟨by decide, claim_C10 0 "0\t1\tc\tid".data "junk".data (by decide)⟩

end Beeline
